import Mathlib

/-!
Verification development for the healer Kafka client core: a shallow
embedding of the binary response decoders (topology/metadata and fetch)
and of the configuration model, with theorems checking the stated
properties of the specification against the embedded code.

Buffers are modelled as `List Nat` of bytes, read in a consuming style:
every primitive read returns the decoded value together with the
remaining suffix of the buffer.  A Go runtime panic from indexing past
the end of the buffer is modelled as `none`; fallible decoders return
`Option`.
-/

/-- Reads one byte from the buffer (Go: `payload[offset]`).  The `% 256`
is the identity on genuine byte buffers and keeps every decoded value in
byte range for arbitrary `Nat` lists. -/
def readU8 : List Nat → Option (Nat × List Nat)
  | [] => none
  | b :: p => some (b % 256, p)

/-- Big-endian `uint16` read (Go: `binary.BigEndian.Uint16`). -/
def readU16 (p0 : List Nat) : Option (Nat × List Nat) :=
  match readU8 p0 with
  | none => none
  | some (b0, p1) =>
    match readU8 p1 with
    | none => none
    | some (b1, p2) => some (b0 * 256 + b1, p2)

/-- Big-endian `uint32` read (Go: `binary.BigEndian.Uint32`). -/
def readU32 (p0 : List Nat) : Option (Nat × List Nat) :=
  match readU16 p0 with
  | none => none
  | some (h, p1) =>
    match readU16 p1 with
    | none => none
    | some (l, p2) => some (h * 65536 + l, p2)

/-- Big-endian `uint64` read (Go: `binary.BigEndian.Uint64`). -/
def readU64 (p0 : List Nat) : Option (Nat × List Nat) :=
  match readU32 p0 with
  | none => none
  | some (h, p1) =>
    match readU32 p1 with
    | none => none
    | some (l, p2) => some (h * 4294967296 + l, p2)

/-- Reads `n` raw bytes (Go slicing `payload[offset : offset+n]`; a
slice reaching past the end of the buffer panics, modelled as `none`). -/
def readBytes (n : Nat) (p : List Nat) : Option (List Nat × List Nat) :=
  if n ≤ p.length then some (p.take n, p.drop n) else none

/-- Reinterprets an 8-bit unsigned value as Go `int8`. -/
def toInt8 (v : Nat) : Int :=
  if v < 128 then (v : Int) else (v : Int) - 256

/-- Reinterprets a 16-bit unsigned value as Go `int16`. -/
def toInt16 (v : Nat) : Int :=
  if v < 32768 then (v : Int) else (v : Int) - 65536

/-- Reinterprets a 32-bit unsigned value as Go `int32`. -/
def toInt32 (v : Nat) : Int :=
  if v < 2147483648 then (v : Int) else (v : Int) - 4294967296

/-- Reinterprets a 64-bit unsigned value as Go `int64`. -/
def toInt64 (v : Nat) : Int :=
  if v < 9223372036854775808 then (v : Int) else (v : Int) - 18446744073709551616

/-- Broker record of the metadata response (source: `BrokerInfo`). -/
structure BrokerInfo where
  NodeId : Int
  Host : List Nat
  Port : Int
deriving DecidableEq

/-- Partition record of the metadata response
(source: `PartitionMetadataInfo`). -/
structure PartitionMetadataInfo where
  PartitionErrorCode : Int
  PartitionID : Int
  Leader : Int
  Replicas : List Int
  Isr : List Int
deriving DecidableEq

/-- Topic record of the metadata response (source: `TopicMetadata`). -/
structure TopicMetadata where
  TopicErrorCode : Int
  TopicName : List Nat
  PartitionMetadatas : List PartitionMetadataInfo
deriving DecidableEq

/-- Decoded topology snapshot (source: `MetadataResponse`). -/
structure MetadataResponse where
  CorrelationID : Nat
  Brokers : List BrokerInfo
  TopicMetadatas : List TopicMetadata
deriving DecidableEq

/-- Modelled from the spec: the semantic error kinds of the error-code
registry (`AllError` and `getErrorFromErrorCode` are declared outside the
provided sources).  The closed enumeration follows the kinds the spec
names, with a generic `Unknown` for unrecognized codes. -/
inductive ErrKind where
  | Unknown
  | OffsetOutOfRange
  | InvalidMessage
  | UnknownTopicOrPartition
  | InvalidMessageSize
  | LeaderNotAvailable
  | NotLeaderForPartition
  | RequestTimedOut
deriving DecidableEq

/-- Modelled from the spec: the pure registry lookup
`errorKind(code: int16) -> ErrorKind`; each recognized non-zero code maps
to one named kind (standard protocol numbering, with `LeaderNotAvailable`
at code 5, the kind the decoder treats as benign), and any unrecognized
code maps to `Unknown`. -/
def getErrorFromErrorCode (code : Int) : ErrKind :=
  if code = 1 then ErrKind.OffsetOutOfRange
  else if code = 2 then ErrKind.InvalidMessage
  else if code = 3 then ErrKind.UnknownTopicOrPartition
  else if code = 4 then ErrKind.InvalidMessageSize
  else if code = 5 then ErrKind.LeaderNotAvailable
  else if code = 6 then ErrKind.NotLeaderForPartition
  else if code = 7 then ErrKind.RequestTimedOut
  else ErrKind.Unknown

/-- Overall error returned by the metadata decoder: either the frame
length mismatch produced before decoding, or a registry kind from a
non-zero topic/partition error code. -/
inductive MetaError where
  | FrameLengthMismatch
  | Kind (k : ErrKind)
deriving DecidableEq

/-- Error-threading step of `NewMetadataResponse`: mirrors
`if err == nil && code != 0 { err = getErrorFromErrorCode(code); if err ==
AllError[9] { err = nil } }` where `AllError[9]` is the benign
leader-not-available entry. -/
def updErr (err : Option ErrKind) (code : Int) : Option ErrKind :=
  match err with
  | some e => some e
  | none =>
    if code ≠ 0 then
      if getErrorFromErrorCode code = ErrKind.LeaderNotAvailable then none
      else some (getErrorFromErrorCode code)
    else none

/-- Decodes `n` big-endian `int32` values (the replica / isr arrays). -/
def parseInt32List : Nat → List Nat → Option (List Int × List Nat)
  | 0, p => some ([], p)
  | n + 1, p =>
    match readU32 p with
    | none => none
    | some (v, p1) =>
      match parseInt32List n p1 with
      | none => none
      | some (vs, p2) => some (toInt32 v :: vs, p2)

/-- Decodes one broker record (source lines 82–92 of the metadata
decoder): node id, length-prefixed host, port. -/
def parseBroker (p0 : List Nat) : Option (BrokerInfo × List Nat) :=
  match readU32 p0 with
  | none => none
  | some (nid, p1) =>
    match readU16 p1 with
    | none => none
    | some (hlen, p2) =>
      match readBytes hlen p2 with
      | none => none
      | some (host, p3) =>
        match readU32 p3 with
        | none => none
        | some (port, p4) => some (⟨toInt32 nid, host, toInt32 port⟩, p4)

/-- Decodes `n` broker records in wire order. -/
def parseBrokers : Nat → List Nat → Option (List BrokerInfo × List Nat)
  | 0, p => some ([], p)
  | n + 1, p =>
    match parseBroker p with
    | none => none
    | some (b, p1) =>
      match parseBrokers n p1 with
      | none => none
      | some (bs, p2) => some (b :: bs, p2)

/-- Decodes one partition record (source lines 118–145): error code,
partition id, leader, replicas, isr. -/
def parsePartition (p0 : List Nat) :
    Option (PartitionMetadataInfo × List Nat) :=
  match readU16 p0 with
  | none => none
  | some (c16, p1) =>
    match readU32 p1 with
    | none => none
    | some (pid, p2) =>
      match readU32 p2 with
      | none => none
      | some (leader, p3) =>
        match readU32 p3 with
        | none => none
        | some (rc, p4) =>
          match parseInt32List rc p4 with
          | none => none
          | some (replicas, p5) =>
            match readU32 p5 with
            | none => none
            | some (ic, p6) =>
              match parseInt32List ic p6 with
              | none => none
              | some (isr, p7) =>
                some (⟨toInt16 c16, toInt32 pid, toInt32 leader, replicas, isr⟩, p7)

/-- Decodes `n` partition records, threading the overall error through
`updErr` with each partition's error code, exactly as the source's loop
checks `partitionErrorCode` each iteration (lines 121–126). -/
def parsePartitions : Nat → Option ErrKind → List Nat →
    Option (List PartitionMetadataInfo × Option ErrKind × List Nat)
  | 0, err, p => some ([], err, p)
  | n + 1, err, p =>
    match parsePartition p with
    | none => none
    | some (pm, p1) =>
      match parsePartitions n (updErr err pm.PartitionErrorCode) p1 with
      | none => none
      | some (pms, err2, p2) => some (pm :: pms, err2, p2)

/-- Decodes one topic record: error code (threaded through `updErr`,
source lines 101–107), length-prefixed name, then its partitions. -/
def parseTopic (err : Option ErrKind) (p0 : List Nat) :
    Option (TopicMetadata × Option ErrKind × List Nat) :=
  match readU16 p0 with
  | none => none
  | some (c16, p1) =>
    match readU16 p1 with
    | none => none
    | some (nlen, p2) =>
      match readBytes nlen p2 with
      | none => none
      | some (name, p3) =>
        match readU32 p3 with
        | none => none
        | some (pc, p4) =>
          match parsePartitions pc (updErr err (toInt16 c16)) p4 with
          | none => none
          | some (pms, err1, p5) =>
            some (⟨toInt16 c16, name, pms⟩, err1, p5)

/-- Decodes `n` topic records, threading the overall error. -/
def parseTopics : Nat → Option ErrKind → List Nat →
    Option (List TopicMetadata × Option ErrKind × List Nat)
  | 0, err, p => some ([], err, p)
  | n + 1, err, p =>
    match parseTopic err p with
    | none => none
    | some (t, err1, p1) =>
      match parseTopics n err1 p1 with
      | none => none
      | some (ts, err2, p2) => some (t :: ts, err2, p2)

/-- Go bytewise string comparison `a < b` (lexicographic, a strict
prefix is smaller), on byte lists. -/
def ltString : List Nat → List Nat → Bool
  | _, [] => false
  | [], _ :: _ => true
  | a :: as, b :: bs => decide (a < b) || (a == b && ltString as bs)

/-- Inserts into a list the way an insertion sort driven by a boolean
`le` does; used to model the sorted outcome of Go `sort.Slice`. -/
def insertLe {α : Type} (le : α → α → Bool) (a : α) : List α → List α
  | [] => [a]
  | b :: l => if le a b then a :: b :: l else b :: insertLe le a l

/-- Insertion sort by a boolean `le`; models the (sorted, permuted)
outcome of Go `sort.Slice` with `less a b = ¬ le b a`. -/
def sortLe {α : Type} (le : α → α → Bool) : List α → List α
  | [] => []
  | a :: l => insertLe le a (sortLe le l)

/-- Non-strict comparison used to sort topics, complementing the
source's `less` function `TopicName i < TopicName j`. -/
def topicLe (a b : TopicMetadata) : Bool :=
  !(ltString b.TopicName a.TopicName)

/-- Non-strict comparison used to sort partitions, complementing the
source's `less` function `PartitionID i < PartitionID j`. -/
def partitionLe (a b : PartitionMetadataInfo) : Bool :=
  !(decide (b.PartitionID < a.PartitionID))

/-- Sorts the partitions of one topic ascending by partition id (source
lines 154–158). -/
def sortPartitionsInTopic (t : TopicMetadata) : TopicMetadata :=
  { t with PartitionMetadatas := sortLe partitionLe t.PartitionMetadatas }

/-- The topology response decoder (source: `NewMetadataResponse`).
The outer `Option` is `none` when the Go code would panic reading past
the buffer; otherwise the pair is the Go return value `(resp?, err?)`:
a frame-length mismatch yields `(none, FrameLengthMismatch)`, and a
completed decode yields the sorted snapshot together with the threaded
error. -/
def NewMetadataResponse (payload : List Nat) :
    Option (Option MetadataResponse × Option MetaError) :=
  match readU32 payload with
  | none => none
  | some (responseLength, p1) =>
    if responseLength + 4 ≠ payload.length then
      some (none, some MetaError.FrameLengthMismatch)
    else
      match readU32 p1 with
      | none => none
      | some (cid, p2) =>
        match readU32 p2 with
        | none => none
        | some (brokersCount, p3) =>
          match parseBrokers brokersCount p3 with
          | none => none
          | some (brokers, p4) =>
            match readU32 p4 with
            | none => none
            | some (tc, p5) =>
              match parseTopics tc none p5 with
              | none => none
              | some (ts, err, _) =>
                some (some ⟨cid, brokers,
                        (sortLe topicLe ts).map sortPartitionsInTopic⟩,
                      err.map MetaError.Kind)

/-- One log record of the fetch response (source: `Message`; fields as
assigned by `DecodeFetchResponse`, with Go `nil` byte slices modelled as
`none`). -/
structure Message where
  Offset : Int
  MessageSize : Int
  Crc : Nat
  MagicByte : Int
  Attributes : Int
  Key : Option (List Nat)
  Value : Option (List Nat)
deriving DecidableEq

/-- Per-partition record of the fetch response (source: `TopicData`). -/
structure TopicData where
  Partition : Int
  ErrorCode : Int
  HighwaterMarkOffset : Int
  MessageSetSize : Int
  MessageSet : List Message
deriving DecidableEq

/-- One entry of the fetch response (the source's anonymous struct with
`TopicName` and `TopicDatas`). -/
structure FetchRespTopic where
  TopicName : List Nat
  TopicDatas : List TopicData
deriving DecidableEq

/-- The fetch response: a sequence of per-topic entries. -/
abbrev FetchResponse := List FetchRespTopic

/-- Go zero value of `Message`: entries of the pre-allocated message
slice that the early-stop `break` leaves unfilled. -/
def zeroMessage : Message := ⟨0, 0, 0, 0, 0, none, none⟩

/-- Decodes one nullable length-prefixed byte field of a message: a
length of `-1` is the absent (`nil`) sentinel; any other negative length
makes Go `make([]byte, n)` panic (`none`); a non-negative length reads
exactly that many bytes. -/
def parseNullBytes (len : Int) (p : List Nat) :
    Option (Option (List Nat) × List Nat) :=
  if len = -1 then some (none, p)
  else if len < 0 then none
  else
    match readBytes len.toNat p with
    | none => none
    | some (bs, p1) => some (some bs, p1)

/-- Decodes one fixed-shape message record (source lines 71–99):
offset, size, crc, magic byte, attributes, nullable key and value. -/
def parseMessage (p0 : List Nat) : Option (Message × List Nat) :=
  match readU64 p0 with
  | none => none
  | some (off64, p1) =>
    match readU32 p1 with
    | none => none
    | some (msz, p2) =>
      match readU32 p2 with
      | none => none
      | some (crc, p3) =>
        match readU8 p3 with
        | none => none
        | some (magic, p4) =>
          match readU8 p4 with
          | none => none
          | some (attr, p5) =>
            match readU32 p5 with
            | none => none
            | some (klen, p6) =>
              match parseNullBytes (toInt32 klen) p6 with
              | none => none
              | some (key, p7) =>
                match readU32 p7 with
                | none => none
                | some (vlen, p8) =>
                  match parseNullBytes (toInt32 vlen) p8 with
                  | none => none
                  | some (value, p9) =>
                    some (⟨toInt64 off64, toInt32 msz, crc, toInt8 magic,
                           toInt8 attr, key, value⟩, p9)

/-- Decodes up to `n` messages with the source's early-stop rule: after
finishing a message, if the cursor reached the end of the whole buffer
(remaining suffix empty), stop reading further messages (`break`,
source lines 100–102). -/
def parseMessages (p : List Nat) : Nat → Option (List Message × List Nat)
  | 0 => some ([], p)
  | n + 1 =>
    match parseMessage p with
    | none => none
    | some (m, p1) =>
      if p1 = [] then some ([m], p1)
      else
        match parseMessages p1 n with
        | none => none
        | some (ms, p2) => some (m :: ms, p2)

/-- Decodes exactly `n` messages with no early-stop rule; used to state
which buffers contain a given number of complete messages. -/
def parseMessagesPlain (p : List Nat) : Nat → Option (List Message × List Nat)
  | 0 => some ([], p)
  | n + 1 =>
    match parseMessage p with
    | none => none
    | some (m, p1) =>
      match parseMessagesPlain p1 n with
      | none => none
      | some (ms, p2) => some (m :: ms, p2)

/-- Decodes one per-partition record (source lines 61–103): partition
id, error code, high-water mark, the message-set-size field interpreted
as a record count (`make([]Message, size)`, panicking when negative),
then that many messages with the early-stop rule.  The message slice
keeps the allocated length: entries the early stop leaves unread stay
the zero `Message`. -/
def parseTopicData (p0 : List Nat) : Option (TopicData × List Nat) :=
  match readU32 p0 with
  | none => none
  | some (pid, p1) =>
    match readU16 p1 with
    | none => none
    | some (ec, p2) =>
      match readU64 p2 with
      | none => none
      | some (hwm, p3) =>
        match readU32 p3 with
        | none => none
        | some (msz, p4) =>
          if toInt32 msz < 0 then none
          else
            match parseMessages p4 (toInt32 msz).toNat with
            | none => none
            | some (ms, p5) =>
              some (⟨toInt32 pid, toInt16 ec, toInt64 hwm, toInt32 msz,
                     ms ++ List.replicate ((toInt32 msz).toNat - ms.length)
                       zeroMessage⟩, p5)

/-- Decodes `n` per-partition records. -/
def parseTopicDatas : Nat → List Nat → Option (List TopicData × List Nat)
  | 0, p => some ([], p)
  | n + 1, p =>
    match parseTopicData p with
    | none => none
    | some (d, p1) =>
      match parseTopicDatas n p1 with
      | none => none
      | some (ds, p2) => some (d :: ds, p2)

/-- Decodes one per-topic entry: length-prefixed topic name, partition
count, then the per-partition records. -/
def parseFetchTopic (p0 : List Nat) : Option (FetchRespTopic × List Nat) :=
  match readU16 p0 with
  | none => none
  | some (nlen, p1) =>
    match readBytes nlen p1 with
    | none => none
    | some (name, p2) =>
      match readU32 p2 with
      | none => none
      | some (pc, p3) =>
        match parseTopicDatas pc p3 with
        | none => none
        | some (ds, p4) => some (⟨name, ds⟩, p4)

/-- Decodes `n` per-topic entries. -/
def parseFetchTopics : Nat → List Nat → Option (List FetchRespTopic × List Nat)
  | 0, p => some ([], p)
  | n + 1, p =>
    match parseFetchTopic p with
    | none => none
    | some (t, p1) =>
      match parseFetchTopics n p1 with
      | none => none
      | some (ts, p2) => some (t :: ts, p2)

/-- The fetch response decoder (source: `DecodeFetchResponse`).  The
outer `Option` is `none` when the Go code would panic reading past the
buffer; otherwise the pair is the Go return value, whose error
component is the literal `nil` of `return fetchResponse, nil`. -/
def DecodeFetchResponse (payload : List Nat) :
    Option (FetchResponse × Option ErrKind) :=
  match readU32 payload with
  | none => none
  | some (tc, p1) =>
    match parseFetchTopics tc p1 with
    | none => none
    | some (ts, _) => some (ts, none)

/-- Modelled from the spec: the numeric identifier of the fetch API
(the `API_FetchRequest` constant is declared outside the provided
sources; the value is the protocol's standard API key). -/
def API_FetchRequest : Nat := 1

/-- Modelled from the spec: the numeric identifier of the offset-commit
API (the `API_OffsetCommitRequest` constant is declared outside the
provided sources; the value is the protocol's standard API key). -/
def API_OffsetCommitRequest : Nat := 8

/-- Modelled from the spec: the numeric identifier of the join-group
API (the `API_JoinGroup` constant is declared outside the provided
sources; the value is the protocol's standard API key). -/
def API_JoinGroup : Nat := 11

/-- Consumer configuration entity (source: `ConsumerConfig`).  The Go
`[]int` field distinguishes `nil` from a present slice, modelled as
`Option (List Int)`. -/
structure ConsumerConfig where
  BootstrapServers : String
  ClientID : String
  GroupID : String
  RetryBackOffMS : Int
  MetadataMaxAgeMS : Int
  SessionTimeoutMS : Int
  FetchMaxWaitMS : Int
  FetchMaxBytes : Int
  FetchMinBytes : Int
  FromBeginning : Bool
  AutoCommit : Bool
  CommitAfterFetch : Bool
  AutoCommitIntervalMS : Int
  OffsetsStorage : Int
  ConnectTimeoutMS : Int
  TimeoutMS : Int
  TimeoutMSForEachAPI : Option (List Int)
deriving DecidableEq

/-- The per-API timeout derivation both `DefaultConsumerConfig` and
`GetConsumerConfig` perform when the vector is nil: 38 entries filled
with `TimeoutMS`, then the join-group, offset-commit and fetch entries
overridden.  `Int.tdiv` is Go's truncating integer division. -/
def deriveTimeoutMSForEachAPI (timeoutMS sessionTimeoutMS fetchMaxWaitMS : Int) :
    List Int :=
  (((List.replicate 38 timeoutMS).set API_JoinGroup (sessionTimeoutMS + 5000)).set
      API_OffsetCommitRequest (Int.tdiv sessionTimeoutMS 2)).set
    API_FetchRequest (timeoutMS + fetchMaxWaitMS)

/-- Default consumer configuration (source: `DefaultConsumerConfig`):
the literal record (with `TimeoutMSForEachAPI` left nil, Go's zero
value), then the nil-triggered per-API vector derivation. -/
def DefaultConsumerConfig : ConsumerConfig :=
  let c : ConsumerConfig :=
    { BootstrapServers := ""
      ClientID := ""
      GroupID := ""
      RetryBackOffMS := 100
      MetadataMaxAgeMS := 300000
      SessionTimeoutMS := 30000
      FetchMaxWaitMS := 100
      FetchMaxBytes := 10 * 1024 * 1024
      FetchMinBytes := 1
      FromBeginning := false
      AutoCommit := true
      CommitAfterFetch := false
      AutoCommitIntervalMS := 5000
      OffsetsStorage := 1
      ConnectTimeoutMS := 30000
      TimeoutMS := 30000
      TimeoutMSForEachAPI := none }
  match c.TimeoutMSForEachAPI with
  | none =>
    { c with TimeoutMSForEachAPI := some (deriveTimeoutMSForEachAPI
        c.TimeoutMS c.SessionTimeoutMS c.FetchMaxWaitMS) }
  | some _ => c

/-- The externally supplied key/value mapping of `GetConsumerConfig`,
field by JSON key: `none` means the key is absent.  For the
`timeout.ms.for.eachapi` slice the inner `Option` distinguishes an
explicit JSON `null` (`some none`, unmarshalled to a nil slice) from a
supplied array (`some (some v)`). -/
structure ConsumerOverrides where
  BootstrapServers : Option String
  ClientID : Option String
  GroupID : Option String
  RetryBackOffMS : Option Int
  MetadataMaxAgeMS : Option Int
  SessionTimeoutMS : Option Int
  FetchMaxWaitMS : Option Int
  FetchMaxBytes : Option Int
  FetchMinBytes : Option Int
  FromBeginning : Option Bool
  AutoCommit : Option Bool
  CommitAfterFetch : Option Bool
  AutoCommitIntervalMS : Option Int
  OffsetsStorage : Option Int
  ConnectTimeoutMS : Option Int
  TimeoutMS : Option Int
  TimeoutMSForEachAPI : Option (Option (List Int))
deriving DecidableEq

/-- The effect of `json.Unmarshal` of the marshalled mapping onto a
configuration value: every field whose key is present is overwritten,
absent keys leave the field unchanged; unmarshalling an explicit `null`
into the `[]int` field sets it to nil. -/
def applyConsumerOverrides (c : ConsumerConfig) (o : ConsumerOverrides) :
    ConsumerConfig :=
  { BootstrapServers := o.BootstrapServers.getD c.BootstrapServers
    ClientID := o.ClientID.getD c.ClientID
    GroupID := o.GroupID.getD c.GroupID
    RetryBackOffMS := o.RetryBackOffMS.getD c.RetryBackOffMS
    MetadataMaxAgeMS := o.MetadataMaxAgeMS.getD c.MetadataMaxAgeMS
    SessionTimeoutMS := o.SessionTimeoutMS.getD c.SessionTimeoutMS
    FetchMaxWaitMS := o.FetchMaxWaitMS.getD c.FetchMaxWaitMS
    FetchMaxBytes := o.FetchMaxBytes.getD c.FetchMaxBytes
    FetchMinBytes := o.FetchMinBytes.getD c.FetchMinBytes
    FromBeginning := o.FromBeginning.getD c.FromBeginning
    AutoCommit := o.AutoCommit.getD c.AutoCommit
    CommitAfterFetch := o.CommitAfterFetch.getD c.CommitAfterFetch
    AutoCommitIntervalMS := o.AutoCommitIntervalMS.getD c.AutoCommitIntervalMS
    OffsetsStorage := o.OffsetsStorage.getD c.OffsetsStorage
    ConnectTimeoutMS := o.ConnectTimeoutMS.getD c.ConnectTimeoutMS
    TimeoutMS := o.TimeoutMS.getD c.TimeoutMS
    TimeoutMSForEachAPI := o.TimeoutMSForEachAPI.getD c.TimeoutMSForEachAPI }

/-- Consumer configuration construction from a key/value mapping
(source: `GetConsumerConfig`): start from the default configuration,
unmarshal the supplied mapping onto it, then run the nil-triggered
per-API vector derivation again. -/
def GetConsumerConfig (o : ConsumerOverrides) : ConsumerConfig :=
  let c := applyConsumerOverrides DefaultConsumerConfig o
  match c.TimeoutMSForEachAPI with
  | none =>
    { c with TimeoutMSForEachAPI := some (deriveTimeoutMSForEachAPI
        c.TimeoutMS c.SessionTimeoutMS c.FetchMaxWaitMS) }
  | some _ => c

/-- Named configuration validation errors (source: the `errors.New`
values of the configuration file). -/
inductive ConfigError where
  | BootstrapServersNotSet
  | EmptyGroupID
  | InvalidOffsetsStorage
  | MessageMaxCountError
  | FlushIntervalMSError
  | UnknownCompressionType
deriving DecidableEq

/-- Producer configuration entity (source: `ProducerConfig`). -/
structure ProducerConfig where
  BootstrapServers : String
  ClientID : String
  Acks : Int
  CompressionType : String
  BatchSize : Int
  MessageMaxCount : Int
  FlushIntervalMS : Int
  MetadataMaxAgeMS : Int
  FetchTopicMetaDataRetrys : Int
  ConnectionsMaxIdleMS : Int
  Retries : Int
  RequestTimeoutMS : Int
deriving DecidableEq

/-- Default producer configuration (source: `DefaultProducerConfig`). -/
def DefaultProducerConfig : ProducerConfig :=
  { BootstrapServers := ""
    ClientID := "healer"
    Acks := 1
    CompressionType := "none"
    BatchSize := 16384
    MessageMaxCount := 1024
    FlushIntervalMS := 200
    MetadataMaxAgeMS := 300000
    FetchTopicMetaDataRetrys := 3
    ConnectionsMaxIdleMS := 540000
    Retries := 0
    RequestTimeoutMS := 30000 }

/-- Producer configuration validation (source: `ProducerConfig.checkValid`):
`none` is the nil (valid) outcome, `some e` the returned error. -/
def ProducerConfig.checkValid (config : ProducerConfig) : Option ConfigError :=
  if config.BootstrapServers = "" then some ConfigError.BootstrapServersNotSet
  else if config.MessageMaxCount ≤ 0 then some ConfigError.MessageMaxCountError
  else if config.FlushIntervalMS ≤ 0 then some ConfigError.FlushIntervalMSError
  else if config.CompressionType = "none" ∨ config.CompressionType = "gzip" ∨
      config.CompressionType = "snappy" ∨ config.CompressionType = "lz4" then
    none
  else some ConfigError.UnknownCompressionType

/-- Head bound of a boolean comparison: the first element of `l`, if
any, is `le`-above `x`. -/
def headLe {α : Type} (le : α → α → Bool) (x : α) : List α → Bool
  | [] => true
  | y :: _ => le x y

/-- Adjacent-pair sortedness check for a boolean comparison. -/
def sortedLe {α : Type} (le : α → α → Bool) : List α → Bool
  | [] => true
  | [_] => true
  | a :: b :: l => le a b && sortedLe le (b :: l)

/-- Adjacent-pair strict sortedness check for a boolean comparison. -/
def strictSortedBy {α : Type} (lt : α → α → Bool) : List α → Bool
  | [] => true
  | [_] => true
  | a :: b :: l => lt a b && strictSortedBy lt (b :: l)

theorem sortedLe_cons {α : Type} (le : α → α → Bool) (x : α) (l : List α) :
    sortedLe le (x :: l) = (headLe le x l && sortedLe le l) := by
  cases l <;> simp [sortedLe, headLe]

theorem sortedLe_insertLe {α : Type} (le : α → α → Bool)
    (total : ∀ a b, le a b = true ∨ le b a = true) (a : α) :
    ∀ l, sortedLe le l = true → sortedLe le (insertLe le a l) = true := by
  intro l
  induction l with
  | nil => intro _; simp [insertLe, sortedLe]
  | cons b l ih =>
    intro hs
    rw [sortedLe_cons] at hs
    simp only [Bool.and_eq_true] at hs
    by_cases hab : le a b = true
    · simp only [insertLe, hab, if_true]
      rw [sortedLe_cons]
      simp only [Bool.and_eq_true]
      refine ⟨hab, ?_⟩
      rw [sortedLe_cons]
      simp [hs.1, hs.2]
    · simp only [insertLe, hab, Bool.false_eq_true, if_false]
      rw [sortedLe_cons]
      simp only [Bool.and_eq_true]
      constructor
      · cases l with
        | nil =>
          simp only [insertLe, headLe]
          rcases total a b with h | h
          · exact absurd h hab
          · exact h
        | cons c l' =>
          by_cases hac : le a c = true
          · simp only [insertLe, hac, if_true, headLe]
            rcases total a b with h | h
            · exact absurd h hab
            · exact h
          · simp only [insertLe, hac, if_false, headLe]
            exact hs.1
      · exact ih hs.2

theorem sortedLe_sortLe {α : Type} (le : α → α → Bool)
    (total : ∀ a b, le a b = true ∨ le b a = true) :
    ∀ l, sortedLe le (sortLe le l) = true := by
  intro l
  induction l with
  | nil => rfl
  | cons a l ih => exact sortedLe_insertLe le total a _ ih

theorem sortedLe_map {α β : Type} (le : α → α → Bool) (le2 : β → β → Bool)
    (f : α → β) (hf : ∀ a b, le2 (f a) (f b) = le a b) :
    ∀ l : List α, sortedLe le2 (l.map f) = sortedLe le l := by
  intro l
  induction l with
  | nil => rfl
  | cons a l ih =>
    cases l with
    | nil => rfl
    | cons b l' =>
      simp only [List.map_cons] at ih ⊢
      simp only [sortedLe, hf]
      rw [ih]

theorem ltString_not_both : ∀ a b, ltString a b = true → ltString b a = true → False := by
  intro a
  induction a with
  | nil =>
    intro b h1 _
    cases b with
    | nil => simp [ltString] at h1
    | cons c cs => simp [ltString] at *
  | cons x xs ih =>
    intro b h1 h2
    cases b with
    | nil => simp [ltString] at h1
    | cons y ys =>
      simp only [ltString, Bool.or_eq_true, decide_eq_true_eq, Bool.and_eq_true,
        beq_iff_eq] at h1 h2
      rcases h1 with h1 | ⟨he1, h1⟩ <;> rcases h2 with h2 | ⟨he2, h2⟩
      · omega
      · omega
      · omega
      · exact ih ys h1 h2

theorem topicLe_total (a b : TopicMetadata) : topicLe a b = true ∨ topicLe b a = true := by
  cases hba : ltString b.TopicName a.TopicName with
  | false => left; simp [topicLe, hba]
  | true =>
    right
    cases hab : ltString a.TopicName b.TopicName with
    | false => simp [topicLe, hab]
    | true => exact (ltString_not_both _ _ hab hba).elim

theorem partitionLe_total (a b : PartitionMetadataInfo) :
    partitionLe a b = true ∨ partitionLe b a = true := by
  simp only [partitionLe, Bool.not_eq_true', decide_eq_false_iff_not, not_lt]
  omega

/-- The topic- and partition-level error codes of a decoded topic list,
in decode order: each topic's code followed by its partitions' codes. -/
def topicsCodes : List TopicMetadata → List Int
  | [] => []
  | t :: ts =>
    (t.TopicErrorCode :: t.PartitionMetadatas.map
      (fun pm => pm.PartitionErrorCode)) ++ topicsCodes ts

/-- An error code the decoder surfaces: non-zero and not mapping to the
benign leader-not-available kind. -/
def isSurfacedCode (c : Int) : Bool :=
  decide (c ≠ 0) && decide (getErrorFromErrorCode c ≠ ErrKind.LeaderNotAvailable)

/-- The registry mapping of the first surfaced error code of a list,
if any. -/
def firstNonBenign (codes : List Int) : Option ErrKind :=
  (codes.find? isSurfacedCode).map getErrorFromErrorCode

theorem foldl_updErr_some (l : List Int) (e : ErrKind) :
    l.foldl updErr (some e) = some e := by
  induction l with
  | nil => rfl
  | cons c l ih =>
    rw [List.foldl_cons]
    exact ih

theorem foldl_updErr_none (l : List Int) :
    l.foldl updErr none = firstNonBenign l := by
  induction l with
  | nil => rfl
  | cons c l ih =>
    rw [List.foldl_cons]
    by_cases h : isSurfacedCode c = true
    · have hc : c ≠ 0 ∧ getErrorFromErrorCode c ≠ ErrKind.LeaderNotAvailable := by
        simpa [isSurfacedCode] using h
      have h1 : updErr none c = some (getErrorFromErrorCode c) := by
        simp [updErr, hc.1, hc.2]
      rw [h1, foldl_updErr_some]
      simp [firstNonBenign, List.find?_cons_of_pos _ h]
    · have h1 : updErr none c = none := by
        simp only [isSurfacedCode, Bool.and_eq_true, decide_eq_true_eq, not_and_or,
          not_not] at h
        rcases h with h | h
        · simp [updErr, h]
        · simp [updErr, h]
      rw [h1, ih]
      simp [firstNonBenign, List.find?_cons_of_neg _ h]


theorem parsePartitions_err :
    ∀ (n : Nat) (err : Option ErrKind) (p : List Nat)
      (pms : List PartitionMetadataInfo) (err2 : Option ErrKind) (p2 : List Nat),
      parsePartitions n err p = some (pms, err2, p2) →
      err2 = (pms.map (fun pm => pm.PartitionErrorCode)).foldl updErr err := by
  intro n
  induction n with
  | zero =>
    intro err p pms err2 p2 h
    simp only [parsePartitions, Option.some.injEq, Prod.mk.injEq] at h
    obtain ⟨h1, h2, _⟩ := h
    subst h1
    subst h2
    rfl
  | succ n ih =>
    intro err p pms err2 p2 h
    cases h1 : parsePartition p with
    | none =>
      simp only [parsePartitions, h1] at h
      exact Option.noConfusion h
    | some v =>
      obtain ⟨pm, pa⟩ := v
      cases h2 : parsePartitions n (updErr err pm.PartitionErrorCode) pa with
      | none =>
        simp only [parsePartitions, h1, h2] at h
        exact Option.noConfusion h
      | some w =>
        obtain ⟨pms', errb, pb⟩ := w
        simp only [parsePartitions, h1, h2, Option.some.injEq, Prod.mk.injEq] at h
        obtain ⟨hpm, herr, _⟩ := h
        subst hpm
        subst herr
        rw [List.map_cons, List.foldl_cons]
        exact ih (updErr err pm.PartitionErrorCode) pa pms' errb pb h2

theorem parseTopic_err (err : Option ErrKind) (p : List Nat)
    (t : TopicMetadata) (err1 : Option ErrKind) (p1 : List Nat)
    (h : parseTopic err p = some (t, err1, p1)) :
    err1 = (t.TopicErrorCode :: t.PartitionMetadatas.map
      (fun pm => pm.PartitionErrorCode)).foldl updErr err := by
  cases h1 : readU16 p with
  | none =>
    simp only [parseTopic, h1] at h
    exact Option.noConfusion h
  | some v1 =>
    obtain ⟨c16, pa⟩ := v1
    cases h2 : readU16 pa with
    | none =>
      simp only [parseTopic, h1, h2] at h
      exact Option.noConfusion h
    | some v2 =>
      obtain ⟨nlen, pb⟩ := v2
      cases h3 : readBytes nlen pb with
      | none =>
        simp only [parseTopic, h1, h2, h3] at h
        exact Option.noConfusion h
      | some v3 =>
        obtain ⟨name, pc⟩ := v3
        cases h4 : readU32 pc with
        | none =>
          simp only [parseTopic, h1, h2, h3, h4] at h
          exact Option.noConfusion h
        | some v4 =>
          obtain ⟨pcount, pd⟩ := v4
          cases h5 : parsePartitions pcount (updErr err (toInt16 c16)) pd with
          | none =>
            simp only [parseTopic, h1, h2, h3, h4, h5] at h
            exact Option.noConfusion h
          | some v5 =>
            obtain ⟨pms, erra, pe⟩ := v5
            simp only [parseTopic, h1, h2, h3, h4, h5, Option.some.injEq,
              Prod.mk.injEq] at h
            obtain ⟨ht, herr, _⟩ := h
            subst ht
            subst herr
            rw [List.foldl_cons]
            exact parsePartitions_err pcount (updErr err (toInt16 c16)) pd pms erra pe h5

theorem parseTopics_err :
    ∀ (n : Nat) (err : Option ErrKind) (p : List Nat)
      (ts : List TopicMetadata) (err2 : Option ErrKind) (p2 : List Nat),
      parseTopics n err p = some (ts, err2, p2) →
      err2 = (topicsCodes ts).foldl updErr err := by
  intro n
  induction n with
  | zero =>
    intro err p ts err2 p2 h
    simp only [parseTopics, Option.some.injEq, Prod.mk.injEq] at h
    obtain ⟨h1, h2, _⟩ := h
    subst h1
    subst h2
    rfl
  | succ n ih =>
    intro err p ts err2 p2 h
    cases h1 : parseTopic err p with
    | none =>
      simp only [parseTopics, h1] at h
      exact Option.noConfusion h
    | some v =>
      obtain ⟨t, erra, pa⟩ := v
      cases h2 : parseTopics n erra pa with
      | none =>
        simp only [parseTopics, h1, h2] at h
        exact Option.noConfusion h
      | some w =>
        obtain ⟨ts', errb, pb⟩ := w
        simp only [parseTopics, h1, h2, Option.some.injEq, Prod.mk.injEq] at h
        obtain ⟨ht, herr, _⟩ := h
        subst ht
        subst herr
        rw [topicsCodes, List.foldl_append]
        rw [← parseTopic_err err p t erra pa h1]
        exact ih erra pa ts' errb pb h2

theorem NewMetadataResponse_shape (payload : List Nat)
    (r : Option MetadataResponse × Option MetaError)
    (h : NewMetadataResponse payload = some r) :
    r.1 = none ∨ ∃ cid brokers ts,
      r.1 = some ⟨cid, brokers, (sortLe topicLe ts).map sortPartitionsInTopic⟩ := by
  cases h1 : readU32 payload with
  | none =>
    simp only [NewMetadataResponse, h1] at h
    exact Option.noConfusion h
  | some v1 =>
    obtain ⟨rlen, p1⟩ := v1
    by_cases h2 : rlen + 4 ≠ payload.length
    · simp only [NewMetadataResponse, h1] at h
      rw [if_pos h2] at h
      obtain rfl := Option.some.inj h
      left
      rfl
    · cases h3 : readU32 p1 with
      | none =>
        simp only [NewMetadataResponse, h1] at h
        rw [if_neg h2] at h
        rw [h3] at h
        exact Option.noConfusion h
      | some v2 =>
        obtain ⟨cid, p2⟩ := v2
        cases h4 : readU32 p2 with
        | none =>
          simp only [NewMetadataResponse, h1] at h
          rw [if_neg h2] at h
          simp only [h3, h4] at h
          exact Option.noConfusion h
        | some v3 =>
          obtain ⟨bc, p3⟩ := v3
          cases h5 : parseBrokers bc p3 with
          | none =>
            simp only [NewMetadataResponse, h1] at h
            rw [if_neg h2] at h
            simp only [h3, h4, h5] at h
            exact Option.noConfusion h
          | some v4 =>
            obtain ⟨brokers, p4⟩ := v4
            cases h6 : readU32 p4 with
            | none =>
              simp only [NewMetadataResponse, h1] at h
              rw [if_neg h2] at h
              simp only [h3, h4, h5, h6] at h
              exact Option.noConfusion h
            | some v5 =>
              obtain ⟨tc, p5⟩ := v5
              cases h7 : parseTopics tc none p5 with
              | none =>
                simp only [NewMetadataResponse, h1] at h
                rw [if_neg h2] at h
                simp only [h3, h4, h5, h6, h7] at h
                exact Option.noConfusion h
              | some v6 =>
                obtain ⟨ts, err, p6⟩ := v6
                simp only [NewMetadataResponse, h1] at h
                rw [if_neg h2] at h
                simp only [h3, h4, h5, h6, h7] at h
                obtain rfl := Option.some.inj h
                right
                exact ⟨cid, brokers, ts, rfl⟩

/-- Claim C1 (amended): for every topology-response buffer the decoder
reads to completion, the returned error is the registry mapping of the
first non-zero topic- or partition-level error code in decode order
whose kind is not the benign leader-not-available kind; every non-zero
code mapping to the benign kind is suppressed (treated as if no error
occurred), and the snapshot is always fully populated with all decoded
brokers and topics (no error truncates it). -/
theorem C1_first_nonbenign_error (payload : List Nat)
    (rlen : Nat) (p1 : List Nat) (cid : Nat) (p2 : List Nat)
    (bc : Nat) (p3 : List Nat) (brokers : List BrokerInfo) (p4 : List Nat)
    (tc : Nat) (p5 : List Nat) (ts : List TopicMetadata)
    (err : Option ErrKind) (p6 : List Nat)
    (h1 : readU32 payload = some (rlen, p1))
    (h2 : rlen + 4 = payload.length)
    (h3 : readU32 p1 = some (cid, p2))
    (h4 : readU32 p2 = some (bc, p3))
    (h5 : parseBrokers bc p3 = some (brokers, p4))
    (h6 : readU32 p4 = some (tc, p5))
    (h7 : parseTopics tc none p5 = some (ts, err, p6)) :
    NewMetadataResponse payload =
      some (some ⟨cid, brokers, (sortLe topicLe ts).map sortPartitionsInTopic⟩,
        (firstNonBenign (topicsCodes ts)).map MetaError.Kind) := by
  have herr : err = firstNonBenign (topicsCodes ts) := by
    rw [parseTopics_err tc none p5 ts err p6 h7, foldl_updErr_none]
  have h2' : ¬ rlen + 4 ≠ payload.length := fun hn => hn h2
  simp only [NewMetadataResponse, h1]
  rw [if_neg h2']
  simp only [h3, h4, h5, h6, h7, herr]

/-- Buffer of a topology response with one topic whose topic-level code
is the benign 5 and whose single partition carries code 1. -/
def c1buf : List Nat :=
  [0, 0, 0, 39, 0, 0, 0, 0, 0, 0, 0, 0, 0, 0, 0, 1,
   0, 5, 0, 1, 97, 0, 0, 0, 1,
   0, 1, 0, 0, 0, 0, 0, 0, 0, 0, 0, 0, 0, 0, 0, 0, 0, 0]

/-- The topic list `c1buf` decodes to (wire order). -/
def c1ts : List TopicMetadata := [⟨5, [97], [⟨1, 0, 0, [], []⟩]⟩]

theorem C1_witness :
    NewMetadataResponse c1buf =
      some (some ⟨0, [], (sortLe topicLe c1ts).map sortPartitionsInTopic⟩,
        (firstNonBenign (topicsCodes c1ts)).map MetaError.Kind) :=
  C1_first_nonbenign_error c1buf 39 (c1buf.drop 4) 0 (c1buf.drop 8) 0
    (c1buf.drop 12) [] (c1buf.drop 12) 1 (c1buf.drop 16) c1ts
    (some ErrKind.OffsetOutOfRange) [] rfl rfl rfl rfl rfl rfl rfl

/-- Claim C1 as stated is false: in `c1buf` the first non-zero error
code in decode order is 5, which maps to the benign leader-not-available
kind, so the claim predicts an overall nil error; the decoder instead
returns the mapping of the later partition code 1. -/
theorem C1_counterexample :
    parseTopics 1 none (c1buf.drop 16) =
      some (c1ts, some ErrKind.OffsetOutOfRange, [])
    ∧ (topicsCodes c1ts).find? (fun c => decide (c ≠ 0)) = some 5
    ∧ getErrorFromErrorCode 5 = ErrKind.LeaderNotAvailable
    ∧ NewMetadataResponse c1buf =
        some (some ⟨0, [], [⟨5, [97], [⟨1, 0, 0, [], []⟩]⟩]⟩,
          some (MetaError.Kind ErrKind.OffsetOutOfRange))
    ∧ some (MetaError.Kind ErrKind.OffsetOutOfRange) ≠ (none : Option MetaError) := by
  exact ⟨rfl, rfl, rfl, rfl, by decide⟩

/-- Claim C2 (amended): the snapshot's topics are sorted ascending by
name (non-strict: duplicate names may repeat) and each topic's
partitions are sorted ascending by partition id, for every buffer the
decoder reads to completion. -/
theorem C2_sorted_ascending (payload : List Nat) (resp : MetadataResponse)
    (e : Option MetaError)
    (h : NewMetadataResponse payload = some (some resp, e)) :
    sortedLe topicLe resp.TopicMetadatas = true ∧
      ∀ t ∈ resp.TopicMetadatas, sortedLe partitionLe t.PartitionMetadatas = true := by
  rcases NewMetadataResponse_shape payload (some resp, e) h with hn | ⟨cid, brokers, ts, hsome⟩
  · exact absurd hn (by simp)
  · simp only at hsome
    obtain rfl := Option.some.inj hsome
    constructor
    · rw [sortedLe_map topicLe topicLe sortPartitionsInTopic (fun a b => rfl)]
      exact sortedLe_sortLe topicLe topicLe_total ts
    · intro t ht
      simp only at ht
      rw [List.mem_map] at ht
      obtain ⟨t', _, rfl⟩ := ht
      exact sortedLe_sortLe partitionLe partitionLe_total t'.PartitionMetadatas

/-- Buffer of a topology response carrying two topics with the same
name, which the decoder accepts. -/
def c2buf : List Nat :=
  [0, 0, 0, 30, 0, 0, 0, 0, 0, 0, 0, 0, 0, 0, 0, 2,
   0, 0, 0, 1, 97, 0, 0, 0, 0,
   0, 0, 0, 1, 97, 0, 0, 0, 0]

/-- The snapshot `c2buf` decodes to. -/
def c2resp : MetadataResponse := ⟨0, [], [⟨0, [97], []⟩, ⟨0, [97], []⟩]⟩

/-- Claim C2 as stated is false: `c2buf` decodes to completion with no
error, but its topics are not strictly ascending by name (the two equal
names repeat). -/
theorem C2_counterexample :
    NewMetadataResponse c2buf = some (some c2resp, none)
    ∧ strictSortedBy (fun a b => ltString a.TopicName b.TopicName)
        c2resp.TopicMetadatas = false := by
  exact ⟨rfl, rfl⟩

theorem C2_witness :
    sortedLe topicLe c2resp.TopicMetadatas = true ∧
      ∀ t ∈ c2resp.TopicMetadatas, sortedLe partitionLe t.PartitionMetadatas = true :=
  C2_sorted_ascending c2buf c2resp none rfl

/-- Claim C3: whenever the leading uint32 length field plus 4 differs
from the buffer length, the decoder returns the frame-length-mismatch
error and a nil snapshot, without decoding anything further. -/
theorem C3_frame_length_mismatch (payload : List Nat) (v : Nat) (rest : List Nat)
    (h1 : readU32 payload = some (v, rest))
    (h2 : v + 4 ≠ payload.length) :
    NewMetadataResponse payload = some (none, some MetaError.FrameLengthMismatch) := by
  simp only [NewMetadataResponse, h1]
  rw [if_pos h2]

theorem C3_witness :
    NewMetadataResponse [0, 0, 0, 9] =
      some (none, some MetaError.FrameLengthMismatch) :=
  C3_frame_length_mismatch [0, 0, 0, 9] 9 [] rfl (by decide)

theorem parseMessage_nil : parseMessage [] = none := rfl

theorem parseMessages_length_le :
    ∀ (n : Nat) (p : List Nat) (ms : List Message) (p2 : List Nat),
      parseMessages p n = some (ms, p2) → ms.length ≤ n := by
  intro n
  induction n with
  | zero =>
    intro p ms p2 h
    simp only [parseMessages, Option.some.injEq, Prod.mk.injEq] at h
    obtain ⟨h1, _⟩ := h
    subst h1
    simp
  | succ n ih =>
    intro p ms p2 h
    cases h1 : parseMessage p with
    | none =>
      simp only [parseMessages, h1] at h
      exact Option.noConfusion h
    | some v =>
      obtain ⟨m, p1⟩ := v
      by_cases he : p1 = []
      · simp only [parseMessages, h1] at h
        rw [if_pos he] at h
        obtain ⟨h2, _⟩ := Prod.mk.injEq .. ▸ Option.some.inj h
        subst h2
        simp
      · simp only [parseMessages, h1] at h
        rw [if_neg he] at h
        cases h2 : parseMessages p1 n with
        | none =>
          rw [h2] at h
          exact Option.noConfusion h
        | some w =>
          obtain ⟨ms', pb⟩ := w
          rw [h2] at h
          obtain ⟨h3, _⟩ := Prod.mk.injEq .. ▸ Option.some.inj h
          subst h3
          have := ih p1 ms' pb h2
          simp only [List.length_cons]
          omega

theorem parseMessagesPlain_length :
    ∀ (n : Nat) (p : List Nat) (ms : List Message) (p2 : List Nat),
      parseMessagesPlain p n = some (ms, p2) → ms.length = n := by
  intro n
  induction n with
  | zero =>
    intro p ms p2 h
    simp only [parseMessagesPlain, Option.some.injEq, Prod.mk.injEq] at h
    obtain ⟨h1, _⟩ := h
    subst h1
    rfl
  | succ n ih =>
    intro p ms p2 h
    cases h1 : parseMessage p with
    | none =>
      simp only [parseMessagesPlain, h1] at h
      exact Option.noConfusion h
    | some v =>
      obtain ⟨m, p1⟩ := v
      cases h2 : parseMessagesPlain p1 n with
      | none =>
        simp only [parseMessagesPlain, h1, h2] at h
        exact Option.noConfusion h
      | some w =>
        obtain ⟨ms', pb⟩ := w
        simp only [parseMessagesPlain, h1, h2, Option.some.injEq, Prod.mk.injEq] at h
        obtain ⟨h3, _⟩ := h
        subst h3
        simp only [List.length_cons]
        rw [ih p1 ms' pb h2]

theorem parseMessages_of_plain :
    ∀ (k : Nat) (p : List Nat) (ms : List Message) (n : Nat),
      parseMessagesPlain p (k + 1) = some (ms, []) → k + 1 ≤ n + 1 →
      parseMessages p (n + 1) = some (ms, []) := by
  intro k
  induction k with
  | zero =>
    intro p ms n h _
    cases h1 : parseMessage p with
    | none =>
      simp only [parseMessagesPlain, h1] at h
      exact Option.noConfusion h
    | some v =>
      obtain ⟨m, p1⟩ := v
      simp only [parseMessagesPlain, h1, Option.some.injEq, Prod.mk.injEq] at h
      obtain ⟨h2, h3⟩ := h
      subst h2
      subst h3
      simp [parseMessages, h1]
  | succ k ih =>
    intro p ms n h hle
    have hstep : parseMessagesPlain p (k + 1 + 1) =
        (match parseMessage p with
         | none => none
         | some (m, p1) =>
           match parseMessagesPlain p1 (k + 1) with
           | none => none
           | some (ms2, p2) => some (m :: ms2, p2)) := rfl
    rw [hstep] at h
    cases h1 : parseMessage p with
    | none =>
      rw [h1] at h
      exact Option.noConfusion h
    | some v =>
      obtain ⟨m, p1⟩ := v
      cases h2 : parseMessagesPlain p1 (k + 1) with
      | none =>
        simp only [h1, h2] at h
        exact Option.noConfusion h
      | some w =>
        obtain ⟨ms', pb⟩ := w
        simp only [h1, h2, Option.some.injEq, Prod.mk.injEq] at h
        obtain ⟨hms, hpb⟩ := h
        subst hpb
        have hne : p1 ≠ [] := by
          intro hcon
          rw [hcon] at h2
          simp only [parseMessagesPlain, parseMessage_nil] at h2
          exact Option.noConfusion h2
        cases n with
        | zero => exact absurd hle (by omega)
        | succ n' =>
          have hstep2 : parseMessages p (n' + 1 + 1) =
              (match parseMessage p with
               | none => none
               | some (m, p1) =>
                 if p1 = [] then some ([m], p1)
                 else
                   match parseMessages p1 (n' + 1) with
                   | none => none
                   | some (ms2, p2) => some (m :: ms2, p2)) := rfl
          rw [hstep2]
          simp only [h1]
          rw [if_neg hne]
          rw [ih p1 ms' n' h2 (by omega)]
          rw [← hms]

theorem parseTopicData_shape (p : List Nat) (d : TopicData) (p2 : List Nat)
    (h : parseTopicData p = some (d, p2)) :
    0 ≤ d.MessageSetSize ∧ d.MessageSet.length = d.MessageSetSize.toNat := by
  cases h1 : readU32 p with
  | none =>
    simp only [parseTopicData, h1] at h
    exact Option.noConfusion h
  | some v1 =>
    obtain ⟨pid, pa⟩ := v1
    cases h2 : readU16 pa with
    | none =>
      simp only [parseTopicData, h1, h2] at h
      exact Option.noConfusion h
    | some v2 =>
      obtain ⟨ec, pb⟩ := v2
      cases h3 : readU64 pb with
      | none =>
        simp only [parseTopicData, h1, h2, h3] at h
        exact Option.noConfusion h
      | some v3 =>
        obtain ⟨hwm, pc⟩ := v3
        cases h4 : readU32 pc with
        | none =>
          simp only [parseTopicData, h1, h2, h3, h4] at h
          exact Option.noConfusion h
        | some v4 =>
          obtain ⟨msz, pd⟩ := v4
          by_cases h5 : toInt32 msz < 0
          · simp only [parseTopicData, h1, h2, h3, h4] at h
            rw [if_pos h5] at h
            exact Option.noConfusion h
          · cases h6 : parseMessages pd (toInt32 msz).toNat with
            | none =>
              simp only [parseTopicData, h1, h2, h3, h4] at h
              rw [if_neg h5] at h
              rw [h6] at h
              exact Option.noConfusion h
            | some v6 =>
              obtain ⟨msgs, pe⟩ := v6
              simp only [parseTopicData, h1, h2, h3, h4] at h
              rw [if_neg h5] at h
              simp only [h6, Option.some.injEq, Prod.mk.injEq] at h
              obtain ⟨hd, _⟩ := h
              subst hd
              have hlen := parseMessages_length_le (toInt32 msz).toNat pd msgs pe h6
              constructor
              · show 0 ≤ toInt32 msz
                omega
              · show (msgs ++ List.replicate ((toInt32 msz).toNat - msgs.length)
                  zeroMessage).length = (toInt32 msz).toNat
                simp only [List.length_append, List.length_replicate]
                omega

theorem parseTopicDatas_shape :
    ∀ (n : Nat) (p : List Nat) (ds : List TopicData) (p2 : List Nat),
      parseTopicDatas n p = some (ds, p2) →
      ∀ d ∈ ds, 0 ≤ d.MessageSetSize ∧ d.MessageSet.length = d.MessageSetSize.toNat := by
  intro n
  induction n with
  | zero =>
    intro p ds p2 h d hd
    simp only [parseTopicDatas, Option.some.injEq, Prod.mk.injEq] at h
    obtain ⟨h1, _⟩ := h
    subst h1
    simp at hd
  | succ n ih =>
    intro p ds p2 h d hd
    cases h1 : parseTopicData p with
    | none =>
      simp only [parseTopicDatas, h1] at h
      exact Option.noConfusion h
    | some v =>
      obtain ⟨d1, pa⟩ := v
      cases h2 : parseTopicDatas n pa with
      | none =>
        simp only [parseTopicDatas, h1, h2] at h
        exact Option.noConfusion h
      | some w =>
        obtain ⟨ds', pb⟩ := w
        simp only [parseTopicDatas, h1, h2, Option.some.injEq, Prod.mk.injEq] at h
        obtain ⟨hds, _⟩ := h
        subst hds
        rcases List.mem_cons.mp hd with rfl | hmem
        · exact parseTopicData_shape p d pa h1
        · exact ih pa ds' pb h2 d hmem

theorem parseFetchTopic_shape (p : List Nat) (t : FetchRespTopic) (p2 : List Nat)
    (h : parseFetchTopic p = some (t, p2)) :
    ∀ d ∈ t.TopicDatas,
      0 ≤ d.MessageSetSize ∧ d.MessageSet.length = d.MessageSetSize.toNat := by
  cases h1 : readU16 p with
  | none =>
    simp only [parseFetchTopic, h1] at h
    exact Option.noConfusion h
  | some v1 =>
    obtain ⟨nlen, pa⟩ := v1
    cases h2 : readBytes nlen pa with
    | none =>
      simp only [parseFetchTopic, h1, h2] at h
      exact Option.noConfusion h
    | some v2 =>
      obtain ⟨name, pb⟩ := v2
      cases h3 : readU32 pb with
      | none =>
        simp only [parseFetchTopic, h1, h2, h3] at h
        exact Option.noConfusion h
      | some v3 =>
        obtain ⟨pc, pd⟩ := v3
        cases h4 : parseTopicDatas pc pd with
        | none =>
          simp only [parseFetchTopic, h1, h2, h3, h4] at h
          exact Option.noConfusion h
        | some v4 =>
          obtain ⟨ds, pe⟩ := v4
          simp only [parseFetchTopic, h1, h2, h3, h4, Option.some.injEq,
            Prod.mk.injEq] at h
          obtain ⟨ht, _⟩ := h
          subst ht
          exact parseTopicDatas_shape pc pd ds pe h4

theorem parseFetchTopics_shape :
    ∀ (n : Nat) (p : List Nat) (ts : List FetchRespTopic) (p2 : List Nat),
      parseFetchTopics n p = some (ts, p2) →
      ∀ t ∈ ts, ∀ d ∈ t.TopicDatas,
        0 ≤ d.MessageSetSize ∧ d.MessageSet.length = d.MessageSetSize.toNat := by
  intro n
  induction n with
  | zero =>
    intro p ts p2 h t ht
    simp only [parseFetchTopics, Option.some.injEq, Prod.mk.injEq] at h
    obtain ⟨h1, _⟩ := h
    subst h1
    simp at ht
  | succ n ih =>
    intro p ts p2 h t ht
    cases h1 : parseFetchTopic p with
    | none =>
      simp only [parseFetchTopics, h1] at h
      exact Option.noConfusion h
    | some v =>
      obtain ⟨t1, pa⟩ := v
      cases h2 : parseFetchTopics n pa with
      | none =>
        simp only [parseFetchTopics, h1, h2] at h
        exact Option.noConfusion h
      | some w =>
        obtain ⟨ts', pb⟩ := w
        simp only [parseFetchTopics, h1, h2, Option.some.injEq, Prod.mk.injEq] at h
        obtain ⟨hts, _⟩ := h
        subst hts
        rcases List.mem_cons.mp ht with rfl | hmem
        · exact parseFetchTopic_shape p t pa h1
        · exact ih pa ts' pb h2 t hmem

/-- Claim C4: the message-set-size field is interpreted as a record
count: every decoded partition's message sequence has exactly that
(non-negative) length, and the per-message loop stops early when a
message ends exactly at the total buffer length, even with a larger
declared count (further declared records stay unread). -/
theorem C4_message_count_interpretation :
    (∀ (payload : List Nat) (r : FetchResponse × Option ErrKind),
        DecodeFetchResponse payload = some r →
        ∀ t ∈ r.1, ∀ d ∈ t.TopicDatas,
          0 ≤ d.MessageSetSize ∧ d.MessageSet.length = d.MessageSetSize.toNat)
    ∧ (∀ (p : List Nat) (n : Nat) (m : Message),
        parseMessage p = some (m, []) →
        parseMessages p (n + 1) = some ([m], [])) := by
  constructor
  · intro payload r h t ht d hd
    cases h1 : readU32 payload with
    | none =>
      simp only [DecodeFetchResponse, h1] at h
      exact Option.noConfusion h
    | some v =>
      obtain ⟨tc, p1⟩ := v
      cases h2 : parseFetchTopics tc p1 with
      | none =>
        simp only [DecodeFetchResponse, h1, h2] at h
        exact Option.noConfusion h
      | some w =>
        obtain ⟨ts, p2⟩ := w
        simp only [DecodeFetchResponse, h1, h2, Option.some.injEq] at h
        subst h
        exact parseFetchTopics_shape tc p1 ts p2 h2 t ht d hd
  · intro p n m h
    simp [parseMessages, h]

/-- Claim C5: for a one-topic, one-partition fetch buffer that declares
more messages than it holds and ends exactly at a message boundary, the
decoder returns all complete messages (the allocated tail stays the
zero message), no error, and does not fail. -/
theorem C5_truncated_tail (payload : List Nat)
    (p1 p2 p3 p4 p5 p6 p7 p8 : List Nat) (nlen : Nat) (name : List Nat)
    (pid ec hwm msz : Nat) (ms : List Message) (k : Nat)
    (h1 : readU32 payload = some (1, p1))
    (h2 : readU16 p1 = some (nlen, p2))
    (h3 : readBytes nlen p2 = some (name, p3))
    (h4 : readU32 p3 = some (1, p4))
    (h5 : readU32 p4 = some (pid, p5))
    (h6 : readU16 p5 = some (ec, p6))
    (h7 : readU64 p6 = some (hwm, p7))
    (h8 : readU32 p7 = some (msz, p8))
    (h9 : parseMessagesPlain p8 (k + 1) = some (ms, []))
    (h10 : k + 1 < (toInt32 msz).toNat) :
    DecodeFetchResponse payload =
      some ([⟨name, [⟨toInt32 pid, toInt16 ec, toInt64 hwm, toInt32 msz,
        ms ++ List.replicate ((toInt32 msz).toNat - (k + 1)) zeroMessage⟩]⟩],
        none) := by
  have hnn : ¬ toInt32 msz < 0 := by
    intro hc
    have : (toInt32 msz).toNat = 0 := by omega
    omega
  obtain ⟨n', hn'⟩ : ∃ n', (toInt32 msz).toNat = n' + 1 :=
    ⟨(toInt32 msz).toNat - 1, by omega⟩
  have hms : parseMessages p8 (n' + 1) = some (ms, []) :=
    parseMessages_of_plain k p8 ms n' h9 (by omega)
  have hlen : ms.length = k + 1 :=
    parseMessagesPlain_length (k + 1) p8 ms [] h9
  have htd : parseTopicData p4 =
      some (⟨toInt32 pid, toInt16 ec, toInt64 hwm, toInt32 msz,
        ms ++ List.replicate ((toInt32 msz).toNat - (k + 1)) zeroMessage⟩, []) := by
    simp only [parseTopicData, h5, h6, h7, h8]
    rw [if_neg hnn, hn']
    simp only [hms, hlen]
  simp only [DecodeFetchResponse, h1, parseFetchTopics, parseFetchTopic, h2, h3, h4,
    parseTopicDatas, htd]

/-- Fetch buffer: one topic, one partition, declared message count 2,
but only one 26-byte message which ends exactly at the buffer end. -/
def c5buf : List Nat :=
  [0, 0, 0, 1, 0, 1, 97, 0, 0, 0, 1,
   0, 0, 0, 0, 0, 0, 0, 0, 0, 0, 0, 0, 0, 0, 0, 0, 0, 2,
   0, 0, 0, 0, 0, 0, 0, 0, 0, 0, 0, 0, 0, 0, 0, 0, 0, 0,
   255, 255, 255, 255, 255, 255, 255, 255]

theorem C5_witness :
    DecodeFetchResponse c5buf =
      some ([⟨[97], [⟨toInt32 0, toInt16 0, toInt64 0, toInt32 2,
        [zeroMessage] ++ List.replicate ((toInt32 2).toNat - (0 + 1))
          zeroMessage⟩]⟩], none) :=
  C5_truncated_tail c5buf (c5buf.drop 4) (c5buf.drop 6) (c5buf.drop 7)
    (c5buf.drop 11) (c5buf.drop 15) (c5buf.drop 17) (c5buf.drop 25)
    (c5buf.drop 29) 1 [97] 0 0 0 2 [zeroMessage] 0
    rfl rfl rfl rfl rfl rfl rfl rfl rfl (by decide)

/-- Claim C6: the fetch decoder's overall error result is always nil;
per-partition codes stay in each `ErrorCode` field and are never
aggregated into the returned error. -/
theorem C6_no_overall_error (payload : List Nat)
    (r : FetchResponse × Option ErrKind)
    (h : DecodeFetchResponse payload = some r) : r.2 = none := by
  cases h1 : readU32 payload with
  | none =>
    simp only [DecodeFetchResponse, h1] at h
    exact Option.noConfusion h
  | some v =>
    obtain ⟨tc, p1⟩ := v
    cases h2 : parseFetchTopics tc p1 with
    | none =>
      simp only [DecodeFetchResponse, h1, h2] at h
      exact Option.noConfusion h
    | some w =>
      obtain ⟨ts, p2⟩ := w
      simp only [DecodeFetchResponse, h1, h2, Option.some.injEq] at h
      subst h
      rfl

/-- Fetch buffer with one partition whose error code is 7 and no
messages. -/
def c6buf : List Nat :=
  [0, 0, 0, 1, 0, 1, 97, 0, 0, 0, 1,
   0, 0, 0, 0, 0, 7, 0, 0, 0, 0, 0, 0, 0, 0, 0, 0, 0, 0]

/-- The pair `c6buf` decodes to: the partition-level code 7 is stored,
the overall error is nil. -/
def c6pair : FetchResponse × Option ErrKind :=
  ([⟨[97], [⟨0, 7, 0, 0, []⟩]⟩], none)

theorem C6_witness :
    DecodeFetchResponse c6buf = some c6pair ∧ c6pair.2 = none :=
  ⟨rfl, C6_no_overall_error c6buf c6pair rfl⟩

/-- Claim C7: a key/value length field of -1 decodes to the absent
(nil) sentinel, which is distinct from an empty byte sequence; a
non-negative length n decodes to exactly the next n bytes of the
buffer. -/
theorem C7_nullable_bytes (len : Int) (p : List Nat) :
    (len = -1 → parseNullBytes len p = some (none, p))
    ∧ (∀ n : Nat, len = (n : Int) → n ≤ p.length →
        parseNullBytes len p = some (some (p.take n), p.drop n))
    ∧ parseNullBytes (-1) p ≠ parseNullBytes 0 p := by
  refine ⟨?_, ?_, ?_⟩
  · intro h
    subst h
    simp [parseNullBytes]
  · intro n h hle
    subst h
    have hne : (n : Int) ≠ -1 := by omega
    have hnn : ¬ (n : Int) < 0 := by omega
    simp only [parseNullBytes]
    rw [if_neg hne, if_neg hnn]
    simp [readBytes, hle]
  · simp [parseNullBytes, readBytes]

theorem C7_witness :
    parseNullBytes (-1) [7] = some (none, [7])
    ∧ parseNullBytes 2 [7, 8] = some (some [7, 8], [])
    ∧ parseNullBytes (-1) [] ≠ parseNullBytes 0 [] := by
  refine ⟨(C7_nullable_bytes (-1) [7]).1 rfl, ?_, (C7_nullable_bytes (-1) []).2.2⟩
  have h := (C7_nullable_bytes 2 [7, 8]).2.1 2 rfl (by decide)
  simpa using h

/-- Claim C8: the default consumer configuration's per-API timeout
vector has exactly 38 entries; the join-group entry is
SessionTimeoutMS + 5000, the offset-commit entry SessionTimeoutMS / 2,
the fetch entry TimeoutMS + FetchMaxWaitMS, and resetting those three
entries to TimeoutMS yields the all-TimeoutMS vector (every other entry
equals TimeoutMS). -/
theorem C8_default_per_api_timeouts :
    DefaultConsumerConfig.TimeoutMSForEachAPI =
      some (deriveTimeoutMSForEachAPI 30000 30000 100)
    ∧ (deriveTimeoutMSForEachAPI 30000 30000 100).length = 38
    ∧ (deriveTimeoutMSForEachAPI 30000 30000 100).get? API_JoinGroup =
        some (30000 + 5000)
    ∧ (deriveTimeoutMSForEachAPI 30000 30000 100).get? API_OffsetCommitRequest =
        some (Int.tdiv 30000 2)
    ∧ (deriveTimeoutMSForEachAPI 30000 30000 100).get? API_FetchRequest =
        some (30000 + 100)
    ∧ (((deriveTimeoutMSForEachAPI 30000 30000 100).set API_JoinGroup 30000).set
          API_OffsetCommitRequest 30000).set API_FetchRequest 30000 =
        List.replicate 38 30000 := by
  decide

/-- Claim C9: with bootstrap servers set and positive message-max-count
and flush-interval, producer validation succeeds exactly for the four
compression types none/gzip/snappy/lz4 and returns the
unknown-compression-type error for every other string. -/
theorem C9_compression_validation (c : ProducerConfig)
    (h1 : c.BootstrapServers ≠ "")
    (h2 : 0 < c.MessageMaxCount)
    (h3 : 0 < c.FlushIntervalMS) :
    (ProducerConfig.checkValid c = none ↔
      (c.CompressionType = "none" ∨ c.CompressionType = "gzip" ∨
       c.CompressionType = "snappy" ∨ c.CompressionType = "lz4"))
    ∧ (¬ (c.CompressionType = "none" ∨ c.CompressionType = "gzip" ∨
          c.CompressionType = "snappy" ∨ c.CompressionType = "lz4") →
        ProducerConfig.checkValid c = some ConfigError.UnknownCompressionType) := by
  have hm : ¬ c.MessageMaxCount ≤ 0 := by omega
  have hf : ¬ c.FlushIntervalMS ≤ 0 := by omega
  simp only [ProducerConfig.checkValid]
  rw [if_neg h1, if_neg hm, if_neg hf]
  by_cases hc : c.CompressionType = "none" ∨ c.CompressionType = "gzip" ∨
      c.CompressionType = "snappy" ∨ c.CompressionType = "lz4"
  · rw [if_pos hc]
    simp [hc]
  · rw [if_neg hc]
    simp [hc]

theorem C9_witness :
    ProducerConfig.checkValid { DefaultProducerConfig with BootstrapServers := "b" } =
      none
    ∧ ProducerConfig.checkValid { DefaultProducerConfig with
        BootstrapServers := "b", CompressionType := "zstd" } =
      some ConfigError.UnknownCompressionType := by
  constructor
  · exact (C9_compression_validation
      { DefaultProducerConfig with BootstrapServers := "b" }
      (by decide) (by decide) (by decide)).1.mpr (Or.inl rfl)
  · exact (C9_compression_validation
      { DefaultProducerConfig with BootstrapServers := "b", CompressionType := "zstd" }
      (by decide) (by decide) (by decide)).2 (by decide)

/-- Claim C10 (amended): when the mapping supplies a non-null
`timeout.ms.for.eachapi` array, it is used verbatim, whatever its
length, with no overrides applied.  When the key is absent, the vector
stays the one `DefaultConsumerConfig` derived from the DEFAULT
TimeoutMS, SessionTimeoutMS and FetchMaxWaitMS — the post-unmarshal
derivation block is skipped because the default vector is already
non-nil, so overridden values do not reach it.  Only an explicit JSON
null for the key makes the derivation run on the possibly-overridden
values. -/
theorem C10_vector_override (o : ConsumerOverrides) :
    (∀ v, o.TimeoutMSForEachAPI = some (some v) →
      (GetConsumerConfig o).TimeoutMSForEachAPI = some v)
    ∧ (o.TimeoutMSForEachAPI = none →
      (GetConsumerConfig o).TimeoutMSForEachAPI =
        some (deriveTimeoutMSForEachAPI 30000 30000 100))
    ∧ (o.TimeoutMSForEachAPI = some none →
      (GetConsumerConfig o).TimeoutMSForEachAPI =
        some (deriveTimeoutMSForEachAPI
          (applyConsumerOverrides DefaultConsumerConfig o).TimeoutMS
          (applyConsumerOverrides DefaultConsumerConfig o).SessionTimeoutMS
          (applyConsumerOverrides DefaultConsumerConfig o).FetchMaxWaitMS)) := by
  refine ⟨?_, ?_, ?_⟩
  · intro v hv
    simp [GetConsumerConfig, applyConsumerOverrides, hv]
  · intro hv
    simp [GetConsumerConfig, applyConsumerOverrides, hv, DefaultConsumerConfig]
  · intro hv
    simp [GetConsumerConfig, applyConsumerOverrides, hv]

/-- All-absent key/value mapping. -/
def oNone : ConsumerOverrides :=
  ⟨none, none, none, none, none, none, none, none, none, none, none, none,
   none, none, none, none, none⟩

/-- Mapping that overrides only `timeout.ms` to 50000. -/
def o10 : ConsumerOverrides := { oNone with TimeoutMS := some 50000 }

theorem C10_witness :
    (GetConsumerConfig oNone).TimeoutMSForEachAPI =
      some (deriveTimeoutMSForEachAPI 30000 30000 100) :=
  (C10_vector_override oNone).2.1 rfl

/-- Claim C10 as stated is false: with `timeout.ms` overridden to 50000
and the vector key absent, the claim predicts a vector derived from the
overridden TimeoutMS (entry 0 would be 50000); the code keeps the
default-derived vector (entry 0 is 30000). -/
theorem C10_counterexample :
    (GetConsumerConfig o10).TimeoutMS = 50000
    ∧ (GetConsumerConfig o10).TimeoutMSForEachAPI =
        some (deriveTimeoutMSForEachAPI 30000 30000 100)
    ∧ (deriveTimeoutMSForEachAPI 30000 30000 100).get? 0 = some 30000
    ∧ (deriveTimeoutMSForEachAPI 50000 30000 100).get? 0 = some 50000
    ∧ (GetConsumerConfig o10).TimeoutMSForEachAPI ≠
        some (deriveTimeoutMSForEachAPI 50000 30000 100) := by
  decide

/-- A single complete 26-byte message record with absent key and
value. -/
def c4mbuf : List Nat :=
  [0, 0, 0, 0, 0, 0, 0, 0, 0, 0, 0, 0, 0, 0, 0, 0, 0, 0,
   255, 255, 255, 255, 255, 255, 255, 255]

theorem C4_witness :
    (0 ≤ (⟨0, 0, 0, 2, [zeroMessage, zeroMessage]⟩ : TopicData).MessageSetSize
      ∧ (⟨0, 0, 0, 2, [zeroMessage, zeroMessage]⟩ : TopicData).MessageSet.length =
        (⟨0, 0, 0, 2, [zeroMessage, zeroMessage]⟩ : TopicData).MessageSetSize.toNat)
    ∧ parseMessages c4mbuf (1 + 1) = some ([zeroMessage], []) := by
  constructor
  · exact C4_message_count_interpretation.1 c5buf
      ([⟨[97], [⟨0, 0, 0, 2, [zeroMessage, zeroMessage]⟩]⟩], none) rfl
      ⟨[97], [⟨0, 0, 0, 2, [zeroMessage, zeroMessage]⟩]⟩ (by decide)
      ⟨0, 0, 0, 2, [zeroMessage, zeroMessage]⟩ (by decide)
  · exact C4_message_count_interpretation.2 c4mbuf 1 zeroMessage rfl
